import Mathlib

/-
Verification of the CONSORT deep-research agent (Danyalkhan14/ContinuousLearningHackathon).

Shallow embedding of the agent's control loop and its collaborators:

  * `src/Agent/retrieval/client.py`  — `QdrantRetriever.search` / `multi_query_search`
  * `src/Agent/search/you_client.py` — `YouSearchClient.search_term` / `hydrate_terms`
  * `src/Agent/agent/state.py`       — `AgentState` (TypedDict)
  * `src/Agent/agent/nodes.py`       — the six LangGraph node functions
  * `src/Agent/agent/graph.py`       — routing functions and graph topology
  * `src/Agent/latex/generator.py`   — `sections_to_latex`

Modelling conventions:

  * External effects (LLM completions, Qdrant hits, You.com responses) are
    inputs: each graph step consumes a `StepInput` record holding the outcome
    of every external call the node could make.  JSON parsing of LLM output is
    external too, so a parse outcome (`PlanParse` / `EvalParse`) accompanies
    the raw text.
  * Python `dict`s (insertion-ordered) are association lists; `dictInsert`
    updates an existing key in place, otherwise appends, exactly as CPython
    does; `dictMerge old new` is the source's `{**old, **new}`.
  * Relevance scores (Python floats used only for comparisons and sorting)
    are modelled as `Int`; `Python `list.sort(key=..., reverse=True)` (a
    stable sort) is modelled as a stable descending insertion sort.
  * An uncaught Python exception is `Option.none` from the step function:
    the run aborts.
-/

/-- `agent/state.py` `ConsortItem`: a single CONSORT checklist item. -/
structure Item where
  id : String
  itemSection : String
  topic : String
  description : String
  group : String
deriving DecidableEq, Repr

/-- `retrieval/client.py` `RetrievedChunk` (also the serialisable dict built in
`nodes.retrieve`): text, relevance score, provenance.  The `metadata` dict of
the Python dataclass is an untyped `Any` payload unused by every operation the
claims mention and is omitted. -/
structure RetrievedChunk where
  text : String
  score : Int
  source_file : String
  page_number : Int
deriving DecidableEq, Repr

/-- Association-list model of a Python `dict[str, str]` (insertion ordered). -/
def lookupStr : List (String × String) → String → Option String
  | [], _ => none
  | (k, v) :: rest, key => if k = key then some v else lookupStr rest key

/-- CPython `d[k] = v`: update an existing key in place, else append. -/
def dictInsert : List (String × String) → String → String → List (String × String)
  | [], k, v => [(k, v)]
  | (k', v') :: rest, k, v =>
      if k' = k then (k', v) :: rest else (k', v') :: dictInsert rest k v

/-- CPython `{**old, **new}`. -/
def dictMerge (old new : List (String × String)) : List (String × String) :=
  new.foldl (fun acc kv => dictInsert acc kv.1 kv.2) old

/-- Key list of a dict (insertion order). -/
def keysOf (d : List (String × String)) : List String := d.map Prod.fst

-- ── retrieval/client.py : multi_query_search ────────────────────────────

/-- The de-duplication loop of `multi_query_search` (lines 126–135): walk the
concatenated per-query results keeping the first occurrence of each text,
where `seen` holds the texts already kept. -/
def dedupSeen (seen : List String) : List RetrievedChunk → List RetrievedChunk
  | [] => []
  | c :: cs =>
      if c.text ∈ seen then dedupSeen seen cs
      else c :: dedupSeen (c.text :: seen) cs

/-- One insertion step of a stable descending sort: the new chunk goes after
every chunk whose score is ≥ its own (so equal scores keep first-seen order,
as CPython's stable `list.sort(key=score, reverse=True)` does). -/
def insertDesc (c : RetrievedChunk) : List RetrievedChunk → List RetrievedChunk
  | [] => [c]
  | d :: ds => if c.score ≤ d.score then d :: insertDesc c ds else c :: d :: ds

/-- `all_chunks.sort(key=lambda c: c.score, reverse=True)` (line 138): stable
sort by descending score. -/
def sortDesc (l : List RetrievedChunk) : List RetrievedChunk :=
  l.foldl (fun acc c => insertDesc c acc) []

/-- `multi_query_search` (lines 115–144).  The per-query Qdrant results are
external inputs: `perQuery` holds, in order, the chunk list each
`self.search(q, top_k_per_query)` call returned.  The function concatenates
them, de-duplicates by exact text (first seen wins) and sorts by descending
score. -/
def multi_query_search (perQuery : List (List RetrievedChunk)) : List RetrievedChunk :=
  sortDesc (dedupSeen [] perQuery.flatten)

-- ── retrieval/client.py : search (lines 50–113) ─────────────────────────

/-- A raw Qdrant hit: `hit.score` plus the payload fields the code reads via
`payload.get(..., default)` (absent keys modelled as `none`). -/
structure Hit where
  score : Int
  payloadText : Option String
  payloadSourceFile : Option String
  payloadPageNumber : Option Int
deriving DecidableEq, Repr

/-- The per-hit conversion in `QdrantRetriever.search` (lines 91–105). -/
def hitChunk (h : Hit) : RetrievedChunk :=
  { text := h.payloadText.getD ""
    score := h.score
    source_file := h.payloadSourceFile.getD ""
    page_number := h.payloadPageNumber.getD 0 }

/-- `QdrantRetriever.search` (lines 50–113).  The outcome of the
`self._qdrant.search(...)` call is the input: `ok hits` or an exception.
The method body contains no `try`/`except`, so an exception from the Qdrant
client propagates to the caller unchanged. -/
def search (qdrantOutcome : Except Unit (List Hit)) : Except Unit (List RetrievedChunk) :=
  match qdrantOutcome with
  | Except.error e => Except.error e
  | Except.ok hits => Except.ok (hits.map hitChunk)

-- ── search/you_client.py ────────────────────────────────────────────────

/-- `search/you_client.py` `WebSearchResult`. -/
structure WebSearchResult where
  query : String
  snippet : String
  url : String
  title : String
deriving DecidableEq, Repr

/-- One raw You.com result dict; the code reads `snippet`, `description`,
`url`, `title` with `.get` defaults. -/
structure RawItem where
  snippet : Option String
  description : Option String
  url : Option String
  title : Option String
deriving DecidableEq, Repr

/-- What `self._wrapper.results(query)` returned: a list, a plain string
(older wrapper versions), or something else. -/
inductive RawResults where
  | rlist (items : List RawItem)
  | rstr (s : String)
  | rother
deriving DecidableEq, Repr

/-- `YouSearchClient.search_term` (lines 41–83).  The wrapper call's outcome
is the input; an exception (`Except.error`) is caught by the `try`/`except`
(lines 54–58) and degrades to `[]`. -/
def search_term (term : String) (outcome : Except Unit RawResults) : List WebSearchResult :=
  let query := "definition of " ++ term ++ " in clinical trials"
  match outcome with
  | Except.error _ => []
  | Except.ok (RawResults.rlist items) =>
      items.map (fun it =>
        { query := query
          snippet := it.snippet.getD (it.description.getD "")
          url := it.url.getD ""
          title := it.title.getD "" })
  | Except.ok (RawResults.rstr s) =>
      [{ query := query, snippet := s, url := "", title := "" }]
  | Except.ok RawResults.rother => []

/-- `" ".join(r.snippet for r in results[:2] if r.snippet)` (line 97). -/
def combineSnippets (results : List WebSearchResult) : String :=
  String.intercalate " " (((results.take 2).map WebSearchResult.snippet).filter (· ≠ ""))

/-- The loop body of `hydrate_terms` (lines 93–100): look the term up; a
term with results gets the combined snippets, a term without results (also
the degraded-failure case) gets the placeholder text. -/
def hydrateStep (f : String → Except Unit RawResults)
    (defs : List (String × String)) (term : String) : List (String × String) :=
  let results := search_term term (f term)
  if results ≠ [] then dictInsert defs term (combineSnippets results)
  else dictInsert defs term ("No definition found for \x27" ++ term ++ "\x27.")

/-- `YouSearchClient.hydrate_terms` (lines 85–101); `f` gives each per-term
wrapper outcome. -/
def hydrate_terms (terms : List String) (f : String → Except Unit RawResults) :
    List (String × String) :=
  terms.foldl (hydrateStep f) []

-- ── latex/generator.py : sections_to_latex ──────────────────────────────

/-- One entry of the `parts` list that `sections_to_latex` accumulates
(lines 58–105).  Each constructor corresponds to one `parts.append(...)` in
the source; `renderPart` below gives the appended string.  Keeping the parts
structured lets theorems talk about markers without string parsing. -/
inductive LPart where
  | blank
  | preamble
  | beginDoc
  | endDoc
  | secCmd (name : String)
  | subsec (topic : String)
  | itemLabel (id : String)
  | itemComment (id : String) (topic : String)
  | body (fragment : String)
  | noEvidence (id : String)
  | tableHeader
  | tableRow (id sec top desc : String)
  | tableFooter
deriving DecidableEq, Repr

/-- `_escape_latex` (lines 26–41) applied characterwise.  The source runs nine
sequential single-character `str.replace` passes; no replacement output
contains a character replaced by a *later* pass, so the sequential passes
equal one characterwise map. -/
def escapeChar (c : Char) : String :=
  if c = '&' then "\\&"
  else if c = '%' then "\\%"
  else if c = '$' then "\\$"
  else if c = '#' then "\\#"
  else if c = '_' then "\\_"
  else if c = '{' then "\\\x7b"
  else if c = '}' then "\\\x7d"
  else if c = '~' then "\\textasciitilde\x7b\x7d"
  else if c = '^' then "\\textasciicircum\x7b\x7d"
  else String.mk [c]

/-- `_escape_latex` on a whole string. -/
def escapeLatex (s : String) : String :=
  String.join (s.toList.map escapeChar)

/-- `item["description"][:80] + "..."` (line 99); Python slices by character. -/
def descTrunc (s : String) : String :=
  String.mk (s.toList.take 80) ++ "..."

/-- Modelled from the spec: the constants of `latex/templates.py` (PREAMBLE,
BEGIN_DOCUMENT, END_DOCUMENT, CONSORT_TABLE_HEADER, CONSORT_TABLE_ROW,
CONSORT_TABLE_FOOTER, SECTION_COMMANDS) — that file is not under `src/`, only
its importer `latex/generator.py` is.  The claims depend only on the
document's part structure, never on these strings' contents, so they are
fixed opaque literals here; `SECTION_COMMANDS` is modelled as the default arm
`\section{name}` the `.get` falls back to. -/
def renderPart : LPart → String
  | LPart.blank => ""
  | LPart.preamble => "\\documentclass\x7barticle\x7d"
  | LPart.beginDoc => "\\begin\x7bdocument\x7d"
  | LPart.endDoc => "\\end\x7bdocument\x7d"
  | LPart.secCmd name => "\\section\x7b" ++ name ++ "\x7d"
  | LPart.subsec topic => "\\subsection\x7b" ++ topic ++ "\x7d"
  | LPart.itemLabel id => "\\label\x7bsec:" ++ id ++ "\x7d"
  | LPart.itemComment id topic => "% --- CONSORT Item " ++ id ++ ": " ++ topic ++ " ---"
  | LPart.body fragment => fragment
  | LPart.noEvidence id => "\n% CONSORT Item " ++ id ++ ": No evidence available.\n"
  | LPart.tableHeader => "\\begin\x7btable\x7d"
  | LPart.tableRow id sec top desc =>
      id ++ " & " ++ sec ++ " & " ++ top ++ " & " ++ desc ++ " \\\\"
  | LPart.tableFooter => "\\end\x7btable\x7d"

/-- The per-item appends of the `for item in consort_items` loop
(lines 63–89), given the `current_section` / `current_topic` values `cs`,
`ct` on loop entry.  After processing, `current_section = item.itemSection`
and `current_topic = item.topic` hold in every branch, so the loop recursion
below threads exactly those. -/
def itemParts (cs ct : String) (x : Item) (sects : List (String × String)) : List LPart :=
  (if x.itemSection ≠ cs then [LPart.blank, LPart.secCmd x.itemSection] else []) ++
  (let ct' := if x.itemSection ≠ cs then "" else ct
   if x.topic ≠ ct' then [LPart.subsec x.topic, LPart.itemLabel x.id] else []) ++
  (let frag := (lookupStr sects x.id).getD ""
   if frag ≠ "" then [LPart.blank, LPart.itemComment x.id x.topic, LPart.body frag]
   else [LPart.noEvidence x.id])

/-- The whole item loop of `sections_to_latex`. -/
def partsLoop (cs ct : String) (sects : List (String × String)) : List Item → List LPart
  | [] => []
  | x :: rest => itemParts cs ct x sects ++ partsLoop x.itemSection x.topic sects rest

/-- One compliance-table row (lines 94–101). -/
def tableRowOf (x : Item) : LPart :=
  LPart.tableRow (escapeLatex x.id) (escapeLatex x.itemSection) (escapeLatex x.topic)
    (escapeLatex (descTrunc x.description))

/-- The full `parts` list of `sections_to_latex` (lines 58–105). -/
def partsOf (items : List Item) (sects : List (String × String)) : List LPart :=
  [LPart.preamble, LPart.blank, LPart.beginDoc, LPart.blank] ++
  partsLoop "" "" sects items ++
  [LPart.blank, LPart.tableHeader] ++ items.map tableRowOf ++
  [LPart.tableFooter, LPart.blank, LPart.endDoc]

/-- `sections_to_latex` (lines 44–109): `"\n".join(parts)`. -/
def sections_to_latex (items : List Item) (sects : List (String × String)) : String :=
  String.intercalate "\n" ((partsOf items sects).map renderPart)

-- ── agent/state.py : AgentState ─────────────────────────────────────────

/-- `agent/state.py` `AgentState`: the full LangGraph state.  A node's
partial-dict update is applied by overwriting the returned fields. -/
structure AgentState where
  consort_items : List Item
  current_item_index : Nat
  research_queries : List String
  retrieved_chunks : List RetrievedChunk
  unfamiliar_terms : List String
  web_search_results : List (String × String)
  evaluation_result : String
  hop_count : Nat
  section_drafts : List (String × String)
  latex_sections : List (String × String)
  final_latex : String
deriving DecidableEq, Repr

/-- `create_initial_state` (graph.py lines 133–148). -/
def initialState (items : List Item) : AgentState :=
  { consort_items := items
    current_item_index := 0
    research_queries := []
    retrieved_chunks := []
    unfamiliar_terms := []
    web_search_results := []
    evaluation_result := ""
    hop_count := 0
    section_drafts := []
    latex_sections := []
    final_latex := "" }

-- ── agent/nodes.py : the node functions ─────────────────────────────────

/-- Outcome of `json.loads(raw)` in `plan_research` (lines 140–146): a JSON
list of strings, valid JSON that is not a list, or a `JSONDecodeError`. -/
inductive PlanParse where
  | ok (qs : List String)
  | notList
  | decodeError
deriving Repr

/-- `plan_research`'s query fallback (lines 140–146): an unparsable or
non-list completion becomes the single-element list `[raw]`. -/
def planQueries (raw : String) : PlanParse → List String
  | PlanParse.ok qs => qs
  | PlanParse.notList => [raw]
  | PlanParse.decodeError => [raw]

/-- `plan_research`'s returned partial update (lines 155–162), applied to the
state: new queries, cleared chunks / hop count / verdict / terms, and
`web_search_results` carried forward via `state.get(...)`. -/
def plan_research (s : AgentState) (raw : String) (p : PlanParse) : AgentState :=
  { s with
    research_queries := planQueries raw p
    retrieved_chunks := []
    hop_count := 0
    evaluation_result := ""
    unfamiliar_terms := []
    web_search_results := s.web_search_results }

/-- `retrieve` (lines 169–202): merge the new chunks into the accumulated
list, de-duplicating by exact text against the texts already present
(`seen = {c["text"] for c in existing}` then first-seen append), and
increment the hop count. -/
def retrieve (s : AgentState) (chunks : List RetrievedChunk) : AgentState :=
  { s with
    retrieved_chunks :=
      s.retrieved_chunks ++ dedupSeen (s.retrieved_chunks.map RetrievedChunk.text) chunks
    hop_count := s.hop_count + 1 }

/-- The structured verdict record `evaluate` builds (lines 255–259 and the
`.get` reads at 261/269/270):  `verdict` is `result.get("verdict")` of the
parsed JSON. -/
structure EvalResult where
  verdict : Option String
  details : String
  unfamiliar_terms : List String
  follow_up_queries : List String
deriving DecidableEq, Repr

/-- Outcome of `json.loads(raw)` in `evaluate`: a parsed JSON object (the
shape the prompt requests), valid JSON that is *not* an object (`null`, a
list, a string, a number), or a `JSONDecodeError`. -/
inductive EvalParse where
  | ok (r : EvalResult)
  | notDict
  | decodeError
deriving Repr

/-- Lines 255–261: the `try`/`except` catches only `json.JSONDecodeError`,
degrading it to
`{"verdict": "sufficient", "details": raw, "unfamiliar_terms": [], "follow_up_queries": []}`.
Valid JSON that is not an object passes the `try`, and the subsequent
`result.get("verdict", "sufficient")` (line 261) then raises an uncaught
`AttributeError` — `none` here, aborting the step. -/
def evalResultOf (raw : String) : EvalParse → Option EvalResult
  | EvalParse.ok r => some r
  | EvalParse.notDict => none
  | EvalParse.decodeError =>
      some { verdict := some "sufficient", details := raw
             unfamiliar_terms := [], follow_up_queries := [] }

/-- `evaluate`'s state update on a parsed verdict record (lines 261–287):
default the verdict to `"sufficient"`, force `"need_more"` to
`"sufficient"` once `hop_count >= 3`, store the verdict and unfamiliar
terms, and replace `research_queries` with the follow-ups only when some
were provided. -/
def evalUpdate (s : AgentState) (result : EvalResult) : AgentState :=
  let verdict0 := result.verdict.getD "sufficient"
  let verdict := if verdict0 = "need_more" ∧ 3 ≤ s.hop_count then "sufficient" else verdict0
  let s' := { s with evaluation_result := verdict
                     unfamiliar_terms := result.unfamiliar_terms }
  if result.follow_up_queries ≠ [] then
    { s' with research_queries := result.follow_up_queries }
  else s'

/-- `web_search` (lines 294–315): with no pending terms the state is
unchanged (the update re-stores the existing dict); otherwise the new
definitions are merged via `{**old, **new}` and `evaluation_result` is set to
`"sufficient"`. -/
def web_search (s : AgentState) (newDefs : List (String × String)) : AgentState :=
  if s.unfamiliar_terms = [] then s
  else
    { s with
      web_search_results := dictMerge s.web_search_results newDefs
      evaluation_result := "sufficient" }

/-- The term definitions `synthesize` feeds the Drafting Engine
(lines 330 and 338–341): the whole current mapping. -/
def synthDefs (s : AgentState) : List (String × String) := s.web_search_results

/-- `synthesize`'s state update (lines 367–384): store the draft under the
current item's id and advance the cursor by one. -/
def synthesize (s : AgentState) (item : Item) (draft : String) : AgentState :=
  { s with
    section_drafts := dictInsert s.section_drafts item.id draft
    current_item_index := s.current_item_index + 1 }

/-- Line 406: the comment emitted for an item with no draft. -/
def noEvidenceTex (id : String) : String :=
  "% No evidence found for CONSORT item " ++ id ++ "\n"

/-- `generate_latex` (lines 391–434): build `latex_sections` (a dict filled
in item order: the LLM conversion `f` of each nonempty draft, else the
no-evidence comment) and assemble `final_latex` via `sections_to_latex`. -/
def generate_latex (s : AgentState) (f : String → String) : AgentState :=
  let ls := s.consort_items.foldl
    (fun acc it =>
      let d := (lookupStr s.section_drafts it.id).getD ""
      dictInsert acc it.id (if d = "" then noEvidenceTex it.id else f d))
    []
  { s with latex_sections := ls, final_latex := sections_to_latex s.consort_items ls }

-- ── agent/graph.py : routing and the step relation ──────────────────────

/-- The graph's nodes (`build_graph`, lines 60–111), plus the `END`
terminal. -/
inductive Node where
  | planNode
  | retrieveNode
  | evaluateNode
  | webSearchNode
  | synthesizeNode
  | generateLatexNode
  | terminal
deriving DecidableEq, Repr

/-- `_route_after_evaluate` (lines 37–45). -/
def route_after_evaluate (s : AgentState) : Node :=
  if s.evaluation_result = "need_more" then Node.retrieveNode
  else if s.evaluation_result = "need_web" then Node.webSearchNode
  else Node.synthesizeNode

/-- `_route_after_synthesize` (lines 48–55). -/
def route_after_synthesize (s : AgentState) : Node :=
  if s.current_item_index < s.consort_items.length then Node.planNode
  else Node.generateLatexNode

/-- The outcomes of every external call a single graph step could make:
the planner / evaluator completions with their parse outcomes, the retrieval
result, the hydration result, the draft, and the per-draft LaTeX
conversion. -/
structure StepInput where
  planRaw : String
  planParse : PlanParse
  chunks : List RetrievedChunk
  evalRaw : String
  evalParse : EvalParse
  newDefs : List (String × String)
  draft : String
  latexFrag : String → String

/-- One step of the compiled graph: run the current node on the state and
follow its (conditional) edge.  `plan_research`, `evaluate` and `synthesize`
index `consort_items[current_item_index]`; an out-of-range index raises
`IndexError` in Python, modelled as `none` (the run aborts). -/
def stepNode : Node → AgentState → StepInput → Option (Node × AgentState)
  | Node.planNode, s, i =>
      match s.consort_items[s.current_item_index]? with
      | none => none
      | some _ => some (Node.retrieveNode, plan_research s i.planRaw i.planParse)
  | Node.retrieveNode, s, i => some (Node.evaluateNode, retrieve s i.chunks)
  | Node.evaluateNode, s, i =>
      match s.consort_items[s.current_item_index]? with
      | none => none
      | some _ =>
          match evalResultOf i.evalRaw i.evalParse with
          | none => none
          | some r =>
              let s' := evalUpdate s r
              some (route_after_evaluate s', s')
  | Node.webSearchNode, s, i => some (Node.evaluateNode, web_search s i.newDefs)
  | Node.synthesizeNode, s, i =>
      match s.consort_items[s.current_item_index]? with
      | none => none
      | some item =>
          let s' := synthesize s item i.draft
          some (route_after_synthesize s', s')
  | Node.generateLatexNode, s, i => some (Node.terminal, generate_latex s i.latexFrag)
  | Node.terminal, s, _ => some (Node.terminal, s)

/-- Run the graph on a script of external-call outcomes; `none` is an aborted
run (uncaught exception). -/
def runSteps : List StepInput → Node × AgentState → Option (Node × AgentState)
  | [], ns => some ns
  | i :: is, ns =>
      match stepNode ns.1 ns.2 i with
      | none => none
      | some ns' => runSteps is ns'

/-- All states a run visits (including the initial one); an aborted run's
trace stops at the last state reached. -/
def traceList : List StepInput → Node × AgentState → List (Node × AgentState)
  | [], ns => [ns]
  | i :: is, ns =>
      ns :: (match stepNode ns.1 ns.2 i with
             | none => []
             | some ns' => traceList is ns')

-- ── Invariant definitions and concrete fixtures ────────────────────────

/-- The hop-count invariant: at most 3, and at most 2 whenever the retrieval
node (which adds 1) is about to run. -/
def hopInv (n : Node) (s : AgentState) : Prop :=
  s.hop_count ≤ 3 ∧ (n = Node.retrieveNode → s.hop_count ≤ 2)

/-- A concrete checklist item used by the witnesses. -/
def wItem : Item := ⟨"w1", "Methods", "Design", "Trial design description", ""⟩

/-- A concrete parsed verdict record asking for more retrieval. -/
def wEvalMoreRec : EvalResult := ⟨some "need_more", "", [], ["f"]⟩

/-- A concrete evaluator completion asking for more retrieval. -/
def wEvalMore : EvalParse := EvalParse.ok wEvalMoreRec

/-- A concrete step input whose evaluator verdict is `"need_more"`. -/
def wInputMore : StepInput := ⟨"p", PlanParse.ok ["q"], [], "e", wEvalMore, [], "d", fun d => d⟩

/-- Concrete single-item states at hop counts 1 and 3. -/
def wState1 : AgentState := { initialState [wItem] with hop_count := 1 }

def wState3 : AgentState := { initialState [wItem] with hop_count := 3 }

/-- The cursor/draft invariant behind C3: the draft keys are exactly the ids
of the items already passed, in order; the cursor never exceeds the item
count and equals it once assembly is reached. -/
def draftsInv (items : List Item) (n : Node) (s : AgentState) : Prop :=
  s.consort_items = items ∧
  s.current_item_index ≤ items.length ∧
  keysOf s.section_drafts = (items.take s.current_item_index).map Item.id ∧
  ((n = Node.generateLatexNode ∨ n = Node.terminal) →
    s.current_item_index = items.length)

/-- A concrete script completing a one-item run: plan, retrieve, a
`"sufficient"` verdict, synthesis, assembly. -/
def wC3Input : StepInput :=
  ⟨"p", PlanParse.ok ["q"], [], "e", EvalParse.ok ⟨some "sufficient", "", [], []⟩,
   [], "dA", fun d => d⟩

def wC3Script : List StepInput := [wC3Input, wC3Input, wC3Input, wC3Input, wC3Input]

/-- The final state of the concrete one-item run. -/
def wC3Final : AgentState :=
  match runSteps wC3Script (Node.planNode, initialState [wItem]) with
  | some ns => ns.2
  | none => initialState []

/-- A concrete evaluator completion asking for web hydration of term `"t"`. -/
def wEvalWeb : EvalParse := EvalParse.ok ⟨some "need_web", "", ["t"], []⟩

/-- A step input whose evaluator verdict is `"need_web"` and whose hydration
result is `nd`. -/
def wInputWeb (nd : List (String × String)) : StepInput :=
  ⟨"p", PlanParse.ok ["q"], [], "e", wEvalWeb, nd, "d", fun d => d⟩

/-- Script for a single item whose evaluator keeps answering `"need_web"`:
plan, retrieve, evaluate, hydrate, evaluate (a fresh verdict). -/
def wC2Script : List StepInput :=
  [wInputWeb [], wInputWeb [], wInputWeb [("t", "d1")], wInputWeb [("t", "d2")],
   wInputWeb [("t", "d3")]]

/-- A state with a pending unfamiliar term, for the hydration witness. -/
def wC2State : AgentState := { initialState [wItem] with unfamiliar_terms := ["t"] }

/-- A step input whose planner and evaluator completions are both
unparsable. -/
def wBadInput : StepInput :=
  ⟨"praw", PlanParse.decodeError, [], "eraw", EvalParse.decodeError, [], "d", fun d => d⟩

/-- A step input whose evaluator completion is valid JSON but not an object
(here a JSON list), so `result.get` raises an uncaught `AttributeError`. -/
def wNotDictInput : StepInput :=
  ⟨"p", PlanParse.ok ["q"], [], "[1, 2, 3]", EvalParse.notDict, [], "d", fun d => d⟩

/-- A mid-run state with accumulated evidence, a verdict and pending terms,
about to start a new item at the planning node. -/
def wC9State : AgentState :=
  { initialState [wItem] with
    retrieved_chunks := [⟨"evidence text", 7, "protocol.pdf", 4⟩]
    evaluation_result := "need_more"
    unfamiliar_terms := ["ANCOVA"]
    hop_count := 2 }

/-- A second checklist item for two-item runs. -/
def wItemB : Item := ⟨"w2", "Methods", "Outcomes", "Outcome measures", ""⟩

def wC10Items : List Item := [wItem, wItemB]

/-- A two-item run in which both items flag the same unfamiliar term `"t"`:
item 1 hydrates it to `"d1"`, item 2 re-hydrates it to `"d2"`. -/
def wC10Script : List StepInput :=
  [wC3Input, wC3Input, wInputWeb [], wInputWeb [("t", "d1")], wC3Input, wC3Input,
   wC3Input, wC3Input, wInputWeb [], wInputWeb [("t", "d2")]]

/-- Two distinct-text fragments sharing one relevance score. -/
def tieA : RetrievedChunk := ⟨"a", 5, "f", 1⟩

def tieB : RetrievedChunk := ⟨"b", 5, "g", 2⟩

/-- The item id a per-item content part carries: either the body comment of
an item with a fragment or the no-evidence placeholder. -/
def partItemId : LPart → Option String
  | LPart.itemComment id _ => some id
  | LPart.noEvidence id => some id
  | _ => none

/-- The (escaped) item id a compliance-table row carries. -/
def partRowId : LPart → Option String
  | LPart.tableRow id _ _ _ => some id
  | _ => none

/-- Is a part a topic marker (`\subsection`)? -/
def isSubsec : LPart → Bool
  | LPart.subsec _ => true
  | _ => false

/-- Each item paired with the `current_section` / `current_topic` values in
force when the assembler's loop reaches it — for items after the first,
exactly the previous item's section and topic labels. -/
def prevLabeled : String → String → List Item → List (String × String × Item)
  | _, _, [] => []
  | cs, ct, x :: rest => (cs, ct, x) :: prevLabeled x.itemSection x.topic rest

/-- Refinement definition following the claim's words (not the source): the
number of topic markers the claim predicts — one for the first item and one
for each later item whose topic label changed from the previous item. -/
def claimTopicChanges (p : Item) : List Item → Nat
  | [] => 0
  | y :: rest => (if y.topic ≠ p.topic then 1 else 0) + claimTopicChanges y rest

/-- Refinement definition following the claim's words (not the source). -/
def claimTopicMarkerCount : List Item → Nat
  | [] => 0
  | x :: rest => 1 + claimTopicChanges x rest

/-- Two items with the same topic label in different sections. -/
def wC8A : Item := ⟨"1", "Methods", "Design", "DescA", ""⟩

def wC8B : Item := ⟨"2", "Results", "Design", "DescB", ""⟩

-- ════════════════════════════════════════════════════════════════════════

-- Helper lemmas

-- ════════════════════════════════════════════════════════════════════════

lemma keysOf_dictInsert (d : List (String × String)) (k v : String) :
    keysOf (dictInsert d k v) = if k ∈ keysOf d then keysOf d else keysOf d ++ [k] := by
  induction d with
  | nil => simp [dictInsert, keysOf]
  | cons hd tl ih =>
      obtain ⟨k', v'⟩ := hd
      by_cases h : k' = k
      · subst h
        simp [dictInsert, keysOf]
      · simp only [dictInsert, if_neg h, keysOf, List.map_cons]
        simp only [keysOf] at ih
        rw [ih]
        by_cases hm : k ∈ tl.map Prod.fst
        · simp [hm, Ne.symm h]
        · simp [hm, Ne.symm h]

lemma keysOf_dictInsert_subset (d : List (String × String)) (k v : String) :
    keysOf d ⊆ keysOf (dictInsert d k v) := by
  rw [keysOf_dictInsert]
  by_cases h : k ∈ keysOf d
  · simp [h]
  · simp only [h, if_false]
    exact List.subset_append_left _ _

lemma mem_keysOf_dictInsert (d : List (String × String)) (k v : String) :
    k ∈ keysOf (dictInsert d k v) := by
  rw [keysOf_dictInsert]
  by_cases h : k ∈ keysOf d <;> simp [h]

lemma keysOf_dictMerge_subset (d new : List (String × String)) :
    keysOf d ⊆ keysOf (dictMerge d new) := by
  induction new generalizing d with
  | nil => simp [dictMerge]
  | cons hd tl ih =>
      intro a ha
      have h1 : keysOf d ⊆ keysOf (dictInsert d hd.1 hd.2) := keysOf_dictInsert_subset d hd.1 hd.2
      exact ih (dictInsert d hd.1 hd.2) (h1 ha)

lemma evalUpdate_hop_count (s : AgentState) (r : EvalResult) :
    (evalUpdate s r).hop_count = s.hop_count := by
  simp only [evalUpdate]
  split <;> rfl

lemma evalUpdate_evaluation_result (s : AgentState) (r : EvalResult) :
    (evalUpdate s r).evaluation_result =
      (if r.verdict.getD "sufficient" = "need_more" ∧ 3 ≤ s.hop_count
       then "sufficient" else r.verdict.getD "sufficient") := by
  simp only [evalUpdate]
  split <;> rfl

lemma evalUpdate_unfamiliar (s : AgentState) (r : EvalResult) :
    (evalUpdate s r).unfamiliar_terms = r.unfamiliar_terms := by
  simp only [evalUpdate]
  split <;> rfl

lemma evalUpdate_web_search_results (s : AgentState) (r : EvalResult) :
    (evalUpdate s r).web_search_results = s.web_search_results := by
  simp only [evalUpdate]
  split <;> rfl

lemma evalUpdate_frame (s : AgentState) (r : EvalResult) :
    (evalUpdate s r).consort_items = s.consort_items ∧
    (evalUpdate s r).current_item_index = s.current_item_index ∧
    (evalUpdate s r).section_drafts = s.section_drafts := by
  simp only [evalUpdate]
  split <;> exact ⟨rfl, rfl, rfl⟩

lemma route_after_evaluate_cases (s : AgentState) :
    route_after_evaluate s = Node.retrieveNode ∨
    route_after_evaluate s = Node.webSearchNode ∨
    route_after_evaluate s = Node.synthesizeNode := by
  simp only [route_after_evaluate]
  split
  · exact Or.inl rfl
  · split
    · exact Or.inr (Or.inl rfl)
    · exact Or.inr (Or.inr rfl)

lemma route_after_evaluate_eq_retrieve {s : AgentState}
    (h : route_after_evaluate s = Node.retrieveNode) :
    s.evaluation_result = "need_more" := by
  by_contra hne
  simp only [route_after_evaluate, if_neg hne] at h
  split at h <;> simp_all

lemma stepNode_preserves_hopInv {n : Node} {s : AgentState} {i : StepInput}
    {n' : Node} {s' : AgentState}
    (h : stepNode n s i = some (n', s')) (hi : hopInv n s) : hopInv n' s' := by
  cases n with
  | planNode =>
      simp only [stepNode] at h
      cases hg : s.consort_items[s.current_item_index]? with
      | none => rw [hg] at h; exact absurd h (by simp)
      | some it =>
          rw [hg] at h
          simp only [Option.some.injEq, Prod.mk.injEq] at h
          obtain ⟨hn, hs⟩ := h
          subst hn; subst hs
          exact ⟨by simp [plan_research], fun _ => by simp [plan_research]⟩
  | retrieveNode =>
      simp only [stepNode, Option.some.injEq, Prod.mk.injEq] at h
      obtain ⟨hn, hs⟩ := h
      subst hn; subst hs
      refine ⟨?_, fun hc => by cases hc⟩
      have h2 : s.hop_count ≤ 2 := hi.2 rfl
      simp only [retrieve]
      omega
  | evaluateNode =>
      simp only [stepNode] at h
      cases hg : s.consort_items[s.current_item_index]? with
      | none => rw [hg] at h; exact absurd h (by simp)
      | some it =>
          rw [hg] at h
          cases hres : evalResultOf i.evalRaw i.evalParse with
          | none => rw [hres] at h; exact absurd h (by simp)
          | some r =>
              rw [hres] at h
              simp only [Option.some.injEq, Prod.mk.injEq] at h
              obtain ⟨hn, hs⟩ := h
              subst hs
              refine ⟨by rw [evalUpdate_hop_count]; exact hi.1, fun hr => ?_⟩
              rw [← hn] at hr
              have hv := route_after_evaluate_eq_retrieve hr
              rw [evalUpdate_evaluation_result] at hv
              rw [evalUpdate_hop_count]
              by_cases hle : 3 ≤ s.hop_count
              · by_cases hm : r.verdict.getD "sufficient" = "need_more"
                · rw [if_pos ⟨hm, hle⟩] at hv
                  exact absurd hv (by decide)
                · rw [if_neg (by tauto)] at hv
                  exact absurd hv hm
              · omega
  | webSearchNode =>
      simp only [stepNode, Option.some.injEq, Prod.mk.injEq] at h
      obtain ⟨hn, hs⟩ := h
      subst hn; subst hs
      refine ⟨?_, fun hc => by cases hc⟩
      simp only [web_search]
      split
      · exact hi.1
      · exact hi.1
  | synthesizeNode =>
      simp only [stepNode] at h
      cases hg : s.consort_items[s.current_item_index]? with
      | none => rw [hg] at h; exact absurd h (by simp)
      | some it =>
          rw [hg] at h
          simp only [Option.some.injEq, Prod.mk.injEq] at h
          obtain ⟨hn, hs⟩ := h
          subst hs
          refine ⟨by simp [synthesize]; exact hi.1, fun hr => ?_⟩
          rw [← hn] at hr
          simp only [route_after_synthesize] at hr
          split at hr <;> cases hr
  | generateLatexNode =>
      simp only [stepNode, Option.some.injEq, Prod.mk.injEq] at h
      obtain ⟨hn, hs⟩ := h
      subst hn; subst hs
      exact ⟨by simp [generate_latex]; exact hi.1, fun hc => by cases hc⟩
  | terminal =>
      simp only [stepNode, Option.some.injEq, Prod.mk.injEq] at h
      obtain ⟨hn, hs⟩ := h
      subst hn; subst hs
      exact ⟨hi.1, fun hc => by cases hc⟩

lemma traceList_hop_le (script : List StepInput) :
    ∀ ns : Node × AgentState, hopInv ns.1 ns.2 →
      ∀ p ∈ traceList script ns, p.2.hop_count ≤ 3 := by
  induction script with
  | nil =>
      intro ns hi p hp
      simp only [traceList, List.mem_singleton] at hp
      subst hp
      exact hi.1
  | cons i is ih =>
      intro ns hi p hp
      simp only [traceList] at hp
      rcases List.mem_cons.mp hp with h | h
      · subst h; exact hi.1
      · cases hs : stepNode ns.1 ns.2 i with
        | none => rw [hs] at h; cases h
        | some ns' =>
            rw [hs] at h
            exact ih ns' (stepNode_preserves_hopInv hs hi) p h

-- ════════════════════════════════════════════════════════════════════════

-- Claim theorems

-- ════════════════════════════════════════════════════════════════════════

/-- C1: the hop count of a run never exceeds 3; evaluating a raw
`"need_more"` verdict at hop count ≥ 3 forces `"sufficient"` and routes to
synthesis, while at hop count < 3 it routes back to retrieval; each
retrieval step increments the hop count by exactly 1. -/
theorem hop_ceiling_never_exceeded :
    (∀ (script : List StepInput) (items : List Item) (p : Node × AgentState),
        p ∈ traceList script (Node.planNode, initialState items) → p.2.hop_count ≤ 3)
    ∧ (∀ (s : AgentState) (i : StepInput),
        stepNode Node.retrieveNode s i = some (Node.evaluateNode, retrieve s i.chunks)
        ∧ (retrieve s i.chunks).hop_count = s.hop_count + 1)
    ∧ (∀ (s : AgentState) (i : StepInput) (it : Item) (r : EvalResult),
        s.consort_items[s.current_item_index]? = some it →
        evalResultOf i.evalRaw i.evalParse = some r →
        r.verdict.getD "sufficient" = "need_more" → 3 ≤ s.hop_count →
        stepNode Node.evaluateNode s i = some (Node.synthesizeNode, evalUpdate s r)
        ∧ (evalUpdate s r).evaluation_result = "sufficient")
    ∧ (∀ (s : AgentState) (i : StepInput) (it : Item) (r : EvalResult),
        s.consort_items[s.current_item_index]? = some it →
        evalResultOf i.evalRaw i.evalParse = some r →
        r.verdict.getD "sufficient" = "need_more" → s.hop_count < 3 →
        stepNode Node.evaluateNode s i = some (Node.retrieveNode, evalUpdate s r)) := by
  refine ⟨?_, ?_, ?_, ?_⟩
  · intro script items p hp
    exact traceList_hop_le script (Node.planNode, initialState items)
      ⟨by simp [initialState], fun hc => by cases hc⟩ p hp
  · intro s i
    exact ⟨rfl, rfl⟩
  · intro s i it r hg hres hv hle
    have he := evalUpdate_evaluation_result s r
    rw [if_pos ⟨hv, hle⟩] at he
    have hroute : route_after_evaluate (evalUpdate s r) = Node.synthesizeNode := by
      simp [route_after_evaluate, he]
    refine ⟨?_, he⟩
    simp only [stepNode, hg, hres, hroute]
  · intro s i it r hg hres hv hlt
    have he := evalUpdate_evaluation_result s r
    rw [if_neg (fun hc => absurd hc.2 (by omega)), hv] at he
    have hroute : route_after_evaluate (evalUpdate s r) = Node.retrieveNode := by
      simp [route_after_evaluate, he]
    simp only [stepNode, hg, hres, hroute]

/-- Witness for `hop_ceiling_never_exceeded`, applying it at concrete
inputs. -/
theorem hop_ceiling_never_exceeded_witness :
    (initialState [wItem]).hop_count ≤ 3
    ∧ (retrieve wState1 wInputMore.chunks).hop_count = wState1.hop_count + 1
    ∧ (evalUpdate wState3 wEvalMoreRec).evaluation_result = "sufficient"
    ∧ stepNode Node.evaluateNode wState1 wInputMore
        = some (Node.retrieveNode, evalUpdate wState1 wEvalMoreRec) := by
  refine ⟨?_, ?_, ?_, ?_⟩
  · exact hop_ceiling_never_exceeded.1 [] [wItem] (Node.planNode, initialState [wItem])
      (by simp [traceList])
  · exact (hop_ceiling_never_exceeded.2.1 wState1 wInputMore).2
  · exact (hop_ceiling_never_exceeded.2.2.1 wState3 wInputMore wItem wEvalMoreRec
      rfl rfl rfl (by decide)).2
  · exact hop_ceiling_never_exceeded.2.2.2 wState1 wInputMore wItem wEvalMoreRec
      rfl rfl rfl (by decide)

lemma nodup_getElem_not_mem_take {α : Type} {l : List α} (h : l.Nodup) {i : Nat}
    (hi : i < l.length) : l[i] ∉ l.take i := by
  intro hmem
  have hsplit : l.take i ++ l.drop i = l := List.take_append_drop i l
  have hnd : (l.take i ++ l.drop i).Nodup := by rw [hsplit]; exact h
  have hdisj := List.disjoint_of_nodup_append hnd
  have hdrop : l[i] ∈ l.drop i := by
    rw [← List.getElem_cons_drop l i hi]
    exact List.mem_cons_self _ _
  exact hdisj hmem hdrop

lemma not_assembly_of_routes {n : Node}
    (h : n = Node.retrieveNode ∨ n = Node.evaluateNode ∨ n = Node.webSearchNode ∨
         n = Node.synthesizeNode ∨ n = Node.planNode) :
    ¬(n = Node.generateLatexNode ∨ n = Node.terminal) := by
  rcases h with h | h | h | h | h <;> subst h <;> rintro (h' | h') <;> cases h'

lemma stepNode_preserves_draftsInv {items : List Item}
    (hnd : (items.map Item.id).Nodup) {n : Node} {s : AgentState} {i : StepInput}
    {n' : Node} {s' : AgentState}
    (h : stepNode n s i = some (n', s')) (hi : draftsInv items n s) :
    draftsInv items n' s' := by
  obtain ⟨hitems, hle, hkeys, hend⟩ := hi
  cases n with
  | planNode =>
      simp only [stepNode] at h
      cases hg : s.consort_items[s.current_item_index]? with
      | none => rw [hg] at h; exact absurd h (by simp)
      | some it =>
          rw [hg] at h
          simp only [Option.some.injEq, Prod.mk.injEq] at h
          obtain ⟨hn, hs⟩ := h
          subst hn; subst hs
          exact ⟨hitems, hle, hkeys, not_assembly_of_routes (by tauto) |>.elim⟩
  | retrieveNode =>
      simp only [stepNode, Option.some.injEq, Prod.mk.injEq] at h
      obtain ⟨hn, hs⟩ := h
      subst hn; subst hs
      exact ⟨hitems, hle, hkeys, not_assembly_of_routes (by tauto) |>.elim⟩
  | evaluateNode =>
      simp only [stepNode] at h
      cases hg : s.consort_items[s.current_item_index]? with
      | none => rw [hg] at h; exact absurd h (by simp)
      | some it =>
          rw [hg] at h
          cases hres : evalResultOf i.evalRaw i.evalParse with
          | none => rw [hres] at h; exact absurd h (by simp)
          | some r =>
              rw [hres] at h
              simp only [Option.some.injEq, Prod.mk.injEq] at h
              obtain ⟨hn, hs⟩ := h
              subst hs
              obtain ⟨hf1, hf2, hf3⟩ := evalUpdate_frame s r
              refine ⟨hf1.trans hitems, hf2 ▸ hle, ?_, ?_⟩
              · rw [show keysOf (evalUpdate s r).section_drafts
                    = keysOf s.section_drafts from by rw [hf3], hf2, hkeys]
              · intro hcontra
                rw [← hn] at hcontra
                exact (not_assembly_of_routes (by
                  rcases route_after_evaluate_cases (evalUpdate s r)
                    with hc | hc | hc <;> tauto) hcontra).elim
  | webSearchNode =>
      simp only [stepNode, Option.some.injEq, Prod.mk.injEq] at h
      obtain ⟨hn, hs⟩ := h
      subst hn; subst hs
      simp only [web_search]
      split
      · exact ⟨hitems, hle, hkeys, not_assembly_of_routes (by tauto) |>.elim⟩
      · exact ⟨hitems, hle, hkeys, not_assembly_of_routes (by tauto) |>.elim⟩
  | synthesizeNode =>
      simp only [stepNode] at h
      cases hg : s.consort_items[s.current_item_index]? with
      | none => rw [hg] at h; exact absurd h (by simp)
      | some it =>
          rw [hg] at h
          simp only [Option.some.injEq, Prod.mk.injEq] at h
          obtain ⟨hn, hs⟩ := h
          subst hs
          rw [hitems] at hg
          have hlt : s.current_item_index < items.length :=
            List.getElem?_eq_some.mp hg |>.1
          have hit : items[s.current_item_index] = it :=
            (List.getElem?_eq_some.mp hg).2.symm ▸ rfl
          have hidnotin : it.id ∉ keysOf s.section_drafts := by
            rw [hkeys, List.map_take]
            have hmaplt : s.current_item_index < (items.map Item.id).length := by
              simpa using hlt
            have h2 := nodup_getElem_not_mem_take hnd hmaplt
            rw [List.getElem_map, hit] at h2
            exact h2
          have hkeys' : keysOf (dictInsert s.section_drafts it.id i.draft)
              = keysOf s.section_drafts ++ [it.id] := by
            rw [keysOf_dictInsert, if_neg hidnotin]
          refine ⟨hitems, by simp [synthesize]; omega, ?_, ?_⟩
          · simp only [synthesize]
            rw [hkeys', hkeys, List.take_succ, List.map_append, hg]
            simp [hit]
          · intro hcontra
            rw [← hn] at hcontra
            simp only [route_after_synthesize, synthesize, hitems] at hcontra
            simp only [synthesize]
            rcases hcontra with hc | hc
            · split at hc
              · cases hc
              · omega
            · split at hc <;> cases hc
  | generateLatexNode =>
      simp only [stepNode, Option.some.injEq, Prod.mk.injEq] at h
      obtain ⟨hn, hs⟩ := h
      subst hn; subst hs
      exact ⟨hitems, hle, hkeys, fun _ => hend (Or.inl rfl)⟩
  | terminal =>
      simp only [stepNode, Option.some.injEq, Prod.mk.injEq] at h
      obtain ⟨hn, hs⟩ := h
      subst hn; subst hs
      exact ⟨hitems, hle, hkeys, fun _ => hend (Or.inr rfl)⟩

lemma runSteps_preserves_draftsInv {items : List Item}
    (hnd : (items.map Item.id).Nodup) :
    ∀ (script : List StepInput) (ns ns' : Node × AgentState),
      draftsInv items ns.1 ns.2 → runSteps script ns = some ns' →
      draftsInv items ns'.1 ns'.2 := by
  intro script
  induction script with
  | nil =>
      intro ns ns' hi hr
      simp only [runSteps, Option.some.injEq] at hr
      subst hr
      exact hi
  | cons i is ih =>
      intro ns ns' hi hr
      simp only [runSteps] at hr
      cases hs : stepNode ns.1 ns.2 i with
      | none => rw [hs] at hr; cases hr
      | some ns1 =>
          rw [hs] at hr
          exact ih ns1 ns' (stepNode_preserves_draftsInv hnd hs hi) hr

/-- C3: on a checklist with unique item ids, a completed run's per-item
draft mapping has exactly the input item ids as its key list (in input
order): no item is missing a draft entry. -/
theorem drafts_cover_all_items (script : List StepInput) (items : List Item)
    (hnd : (items.map Item.id).Nodup) (s : AgentState)
    (hrun : runSteps script (Node.planNode, initialState items)
      = some (Node.terminal, s)) :
    keysOf s.section_drafts = items.map Item.id := by
  have hinit : draftsInv items Node.planNode (initialState items) := by
    refine ⟨rfl, by simp [initialState], by simp [initialState, keysOf], ?_⟩
    rintro (h | h) <;> cases h
  have hfin := runSteps_preserves_draftsInv hnd script _ _ hinit hrun
  obtain ⟨_, _, hkeys, hend⟩ := hfin
  rw [hkeys, hend (Or.inr rfl), List.take_length]

set_option maxRecDepth 8192 in
/-- Witness for `drafts_cover_all_items` on the concrete one-item run. -/

theorem drafts_cover_all_items_witness :
    runSteps wC3Script (Node.planNode, initialState [wItem])
      = some (Node.terminal, wC3Final)
    ∧ keysOf wC3Final.section_drafts = [wItem].map Item.id := by
  have h : runSteps wC3Script (Node.planNode, initialState [wItem])
      = some (Node.terminal, wC3Final) := by decide
  exact ⟨h, drafts_cover_all_items wC3Script [wItem] (by decide) wC3Final h⟩

/-- C2 counterexample: after hydration the graph returns to the `evaluate`
node, which issues a fresh verdict; with an evaluator that answers
`"need_web"` again, the same work item reaches the hydration node a second
time (the trace visits `web_search` twice while the cursor stays at item 0),
and the state one step after the first hydration is the `evaluate` node, not
synthesis.  So hydration does not force the loop to synthesis and a second
`need_web` for the same item is possible: the claim is false. -/
theorem hydration_single_pass_counterexample :
    ((traceList wC2Script (Node.planNode, initialState [wItem])).countP
      (fun ns => ns.1 = Node.webSearchNode)) = 2
    ∧ (traceList wC2Script (Node.planNode, initialState [wItem])).all
        (fun ns => ns.2.current_item_index = 0) = true
    ∧ (runSteps (wC2Script.take 4) (Node.planNode, initialState [wItem])).map Prod.fst
        = some Node.evaluateNode := by
  refine ⟨by decide, by decide, by decide⟩

/-- C2 amended: the hydration node merges the new definitions and writes
`"sufficient"` into `evaluation_result`, but the graph's unconditional edge
then runs the `evaluate` node again, so the item gets a fresh verdict (which
may again be `need_more` or `need_web`): hydration is not limited to a
single pass per item. -/
theorem hydration_returns_to_evaluation (s : AgentState) (i : StepInput)
    (h : s.unfamiliar_terms ≠ []) :
    stepNode Node.webSearchNode s i = some (Node.evaluateNode, web_search s i.newDefs)
    ∧ (web_search s i.newDefs).web_search_results
        = dictMerge s.web_search_results i.newDefs
    ∧ (web_search s i.newDefs).evaluation_result = "sufficient" := by
  refine ⟨rfl, ?_, ?_⟩ <;> simp [web_search, h]

/-- Witness for `hydration_returns_to_evaluation` at a concrete state. -/
theorem hydration_returns_to_evaluation_witness :
    stepNode Node.webSearchNode wC2State (wInputWeb [("t", "d1")])
      = some (Node.evaluateNode, web_search wC2State [("t", "d1")])
    ∧ (web_search wC2State [("t", "d1")]).web_search_results
        = dictMerge wC2State.web_search_results [("t", "d1")]
    ∧ (web_search wC2State [("t", "d1")]).evaluation_result = "sufficient" :=
  hydration_returns_to_evaluation wC2State (wInputWeb [("t", "d1")]) (by decide)

/-- C4 counterexample: on a 0-item checklist the run does not complete — the
entry node `plan_research` indexes `consort_items[0]` on an empty list
(an uncaught `IndexError`), so the very first step aborts the run. -/
theorem empty_checklist_counterexample :
    stepNode Node.planNode (initialState []) wC3Input = none
    ∧ runSteps [wC3Input] (Node.planNode, initialState []) = none := by
  refine ⟨by decide, by decide⟩

/-- C4 amended: a 0-item run fails at the first planning step whatever the
external inputs are (so no run over an empty checklist ever completes),
while the assembler alone, applied to 0 items, does produce the document
with an empty body and the full (empty) compliance table. -/
theorem empty_checklist_aborts (i : StepInput) (rest : List StepInput)
    (sects : List (String × String)) :
    stepNode Node.planNode (initialState []) i = none
    ∧ runSteps (i :: rest) (Node.planNode, initialState []) = none
    ∧ partsOf [] sects =
        [LPart.preamble, LPart.blank, LPart.beginDoc, LPart.blank, LPart.blank,
         LPart.tableHeader, LPart.tableFooter, LPart.blank, LPart.endDoc] := by
  have h1 : stepNode Node.planNode (initialState []) i = none := by
    simp [stepNode, initialState]
  refine ⟨h1, ?_, rfl⟩
  simp [runSteps, h1]

/-- Witness for `empty_checklist_aborts` at concrete inputs. -/
theorem empty_checklist_aborts_witness :
    stepNode Node.planNode (initialState []) wC3Input = none
    ∧ runSteps [wC3Input] (Node.planNode, initialState []) = none
    ∧ partsOf [] [] =
        [LPart.preamble, LPart.blank, LPart.beginDoc, LPart.blank, LPart.blank,
         LPart.tableHeader, LPart.tableFooter, LPart.blank, LPart.endDoc] :=
  empty_checklist_aborts wC3Input [] []

/-- C5 counterexample: an evaluator completion that is valid JSON but not an
object (here the JSON list `"[1, 2, 3]"`) passes `json.loads` — the `except`
catches only `JSONDecodeError` — and the subsequent
`result.get("verdict", "sufficient")` (nodes.py line 261) raises an uncaught
`AttributeError`: the evaluate step aborts and the whole run fails, so this
malformed structured output IS surfaced as a run failure, contradicting the
claim. -/
theorem eval_nonobject_aborts_counterexample :
    stepNode Node.evaluateNode wState1 wNotDictInput = none
    ∧ runSteps [wC3Input, wC3Input, wNotDictInput]
        (Node.planNode, initialState [wItem]) = none := by
  refine ⟨by decide, by decide⟩

/-- C5 amended: malformed planner output is always recovered locally — an
unparsable or non-list planner completion degrades to the single-element
query list `[raw]`, so retrieval never receives zero queries — and an
evaluator completion that raises `JSONDecodeError` degrades to verdict
`"sufficient"` with the raw output preserved as the rationale (`details`),
the step succeeding and routing to synthesis; but an evaluator completion
that is valid JSON and not an object escapes the fallback (`result.get`
raises an uncaught `AttributeError`) and aborts the run. -/
theorem malformed_output_recovery_scope :
    (∀ raw : String, planQueries raw PlanParse.decodeError = [raw]
        ∧ planQueries raw PlanParse.notList = [raw])
    ∧ (∀ (s : AgentState) (i : StepInput) (it : Item),
        s.consort_items[s.current_item_index]? = some it →
        (i.planParse = PlanParse.decodeError ∨ i.planParse = PlanParse.notList) →
        stepNode Node.planNode s i
          = some (Node.retrieveNode, plan_research s i.planRaw i.planParse)
        ∧ (plan_research s i.planRaw i.planParse).research_queries = [i.planRaw])
    ∧ (∀ raw : String, evalResultOf raw EvalParse.decodeError
        = some ⟨some "sufficient", raw, [], []⟩)
    ∧ (∀ (s : AgentState) (i : StepInput) (it : Item),
        s.consort_items[s.current_item_index]? = some it →
        i.evalParse = EvalParse.decodeError →
        stepNode Node.evaluateNode s i
          = some (Node.synthesizeNode,
              evalUpdate s ⟨some "sufficient", i.evalRaw, [], []⟩)
        ∧ (evalUpdate s ⟨some "sufficient", i.evalRaw, [], []⟩).evaluation_result
            = "sufficient")
    ∧ (∀ (s : AgentState) (i : StepInput) (it : Item),
        s.consort_items[s.current_item_index]? = some it →
        i.evalParse = EvalParse.notDict →
        stepNode Node.evaluateNode s i = none) := by
  refine ⟨?_, ?_, ?_, ?_, ?_⟩
  · intro raw; exact ⟨rfl, rfl⟩
  · intro s i it hg hp
    refine ⟨by simp [stepNode, hg], ?_⟩
    rcases hp with hp | hp <;> simp [plan_research, planQueries, hp]
  · intro raw; rfl
  · intro s i it hg hp
    have hres : (evalUpdate s ⟨some "sufficient", i.evalRaw, [], []⟩).evaluation_result
        = "sufficient" := by
      rw [evalUpdate_evaluation_result]
      simp
    have hroute : route_after_evaluate (evalUpdate s ⟨some "sufficient", i.evalRaw, [], []⟩)
        = Node.synthesizeNode := by
      simp [route_after_evaluate, hres]
    refine ⟨?_, hres⟩
    simp only [stepNode, hg, hp, evalResultOf, hroute]
  · intro s i it hg hp
    simp only [stepNode, hg, hp, evalResultOf]

/-- Witness for `malformed_output_recovery_scope` at concrete inputs. -/
theorem malformed_output_recovery_scope_witness :
    planQueries "praw" PlanParse.decodeError = ["praw"]
    ∧ (plan_research (initialState [wItem]) wBadInput.planRaw
        wBadInput.planParse).research_queries = [wBadInput.planRaw]
    ∧ evalResultOf "eraw" EvalParse.decodeError = some ⟨some "sufficient", "eraw", [], []⟩
    ∧ stepNode Node.evaluateNode (initialState [wItem]) wBadInput
        = some (Node.synthesizeNode,
            evalUpdate (initialState [wItem]) ⟨some "sufficient", wBadInput.evalRaw, [], []⟩)
    ∧ stepNode Node.evaluateNode wState1 wNotDictInput = none := by
  refine ⟨(malformed_output_recovery_scope.1 "praw").1, ?_,
    malformed_output_recovery_scope.2.2.1 "eraw", ?_, ?_⟩
  · exact (malformed_output_recovery_scope.2.1 (initialState [wItem]) wBadInput wItem rfl
      (Or.inl rfl)).2
  · exact (malformed_output_recovery_scope.2.2.2.1 (initialState [wItem]) wBadInput
      wItem rfl rfl).1
  · exact malformed_output_recovery_scope.2.2.2.2 wState1 wNotDictInput wItem rfl rfl

lemma keysOf_hydrateStep (f : String → Except Unit RawResults)
    (defs : List (String × String)) (term : String) :
    keysOf defs ⊆ keysOf (hydrateStep f defs term)
    ∧ term ∈ keysOf (hydrateStep f defs term) := by
  simp only [hydrateStep]
  split
  · exact ⟨keysOf_dictInsert_subset _ _ _, mem_keysOf_dictInsert _ _ _⟩
  · exact ⟨keysOf_dictInsert_subset _ _ _, mem_keysOf_dictInsert _ _ _⟩

lemma hydrate_fold_mem_keys (f : String → Except Unit RawResults) :
    ∀ (terms : List String) (acc : List (String × String)) (t : String),
      t ∈ terms ∨ t ∈ keysOf acc → t ∈ keysOf (terms.foldl (hydrateStep f) acc) := by
  intro terms
  induction terms with
  | nil =>
      intro acc t ht
      rcases ht with ht | ht
      · cases ht
      · simpa using ht
  | cons hd tl ih =>
      intro acc t ht
      simp only [List.foldl_cons]
      rcases ht with ht | ht
      · rcases List.mem_cons.mp ht with h | h
        · subst h
          exact ih _ t (Or.inr (keysOf_hydrateStep f acc t).2)
        · exact ih _ t (Or.inl h)
      · exact ih _ t (Or.inr ((keysOf_hydrateStep f acc hd).1 ht))

/-- C7 counterexample: an upstream failure of the Evidence Store Adapter
does not degrade to an empty result set — `QdrantRetriever.search` has no
exception handler, so the failure propagates out of the call (and aborts the
item whose retrieval step made it). -/
theorem evidence_store_failure_propagates :
    search (Except.error ()) = Except.error ()
    ∧ search (Except.error ()) ≠ Except.ok [] := by
  exact ⟨rfl, by simp [search]⟩

/-- C7 amended: only the Knowledge Hydrator degrades an upstream failure to
an empty result set for that call — `search_term` catches the exception and
returns `[]`, and `hydrate_terms` still maps every requested term (a failed
term gets the placeholder definition) — while an Evidence Store failure
propagates out of `search` unchanged. -/
theorem upstream_failure_degradation (terms : List String)
    (f : String → Except Unit RawResults) (t term : String) (ht : t ∈ terms) :
    search_term term (Except.error ()) = []
    ∧ search (Except.error ()) = Except.error ()
    ∧ t ∈ keysOf (hydrate_terms terms f)
    ∧ hydrate_terms [term] (fun _ => Except.error ())
        = [(term, "No definition found for \x27" ++ term ++ "\x27.")] := by
  refine ⟨rfl, rfl, hydrate_fold_mem_keys f terms [] t (Or.inl ht), ?_⟩
  simp [hydrate_terms, hydrateStep, search_term, dictInsert]

/-- Witness for `upstream_failure_degradation` at concrete inputs. -/
theorem upstream_failure_degradation_witness :
    search_term "ANCOVA" (Except.error ()) = []
    ∧ search (Except.error ()) = Except.error ()
    ∧ "t" ∈ keysOf (hydrate_terms ["t"] (fun _ => Except.ok (RawResults.rstr "def")))
    ∧ hydrate_terms ["ANCOVA"] (fun _ => Except.error ())
        = [("ANCOVA", "No definition found for \x27ANCOVA\x27.")] :=
  upstream_failure_degradation ["t"] (fun _ => Except.ok (RawResults.rstr "def"))
    "t" "ANCOVA" (by decide)

/-- C9 counterexample: the PLANNING transition clears more than the hop
count and the query list — starting from a state with accumulated evidence,
a last verdict and pending unfamiliar terms, `plan_research` also resets
`retrieved_chunks`, `evaluation_result` and `unfamiliar_terms`, so those
fields are not left unchanged as the claim states. -/
theorem planning_clears_more_counterexample :
    stepNode Node.planNode wC9State wInputMore
      = some (Node.retrieveNode, plan_research wC9State wInputMore.planRaw wInputMore.planParse)
    ∧ wC9State.retrieved_chunks = [⟨"evidence text", 7, "protocol.pdf", 4⟩]
    ∧ (plan_research wC9State wInputMore.planRaw wInputMore.planParse).retrieved_chunks = []
    ∧ wC9State.evaluation_result = "need_more"
    ∧ (plan_research wC9State wInputMore.planRaw wInputMore.planParse).evaluation_result = ""
    ∧ wC9State.unfamiliar_terms = ["ANCOVA"]
    ∧ (plan_research wC9State wInputMore.planRaw wInputMore.planParse).unfamiliar_terms = [] := by
  refine ⟨by decide, by decide, by decide, by decide, by decide, by decide, by decide⟩

/-- C9 amended: at the PLANNING transition the hop count and query list are
reset, and so are the evidence accumulation, the unfamiliar-term list and
the last verdict; of the IterationState fields only the term→definition
mapping (`web_search_results`) is carried forward unchanged, and all
RunState fields (items, cursor, drafts, rendered sections, final document)
are untouched. -/
theorem planning_transition_frame (s : AgentState) (i : StepInput) (it : Item)
    (h : s.consort_items[s.current_item_index]? = some it) :
    stepNode Node.planNode s i
      = some (Node.retrieveNode, plan_research s i.planRaw i.planParse)
    ∧ (plan_research s i.planRaw i.planParse).research_queries
        = planQueries i.planRaw i.planParse
    ∧ (plan_research s i.planRaw i.planParse).hop_count = 0
    ∧ (plan_research s i.planRaw i.planParse).retrieved_chunks = []
    ∧ (plan_research s i.planRaw i.planParse).unfamiliar_terms = []
    ∧ (plan_research s i.planRaw i.planParse).evaluation_result = ""
    ∧ (plan_research s i.planRaw i.planParse).web_search_results = s.web_search_results
    ∧ (plan_research s i.planRaw i.planParse).consort_items = s.consort_items
    ∧ (plan_research s i.planRaw i.planParse).current_item_index = s.current_item_index
    ∧ (plan_research s i.planRaw i.planParse).section_drafts = s.section_drafts
    ∧ (plan_research s i.planRaw i.planParse).latex_sections = s.latex_sections
    ∧ (plan_research s i.planRaw i.planParse).final_latex = s.final_latex := by
  refine ⟨by simp [stepNode, h], rfl, rfl, rfl, rfl, rfl, rfl, rfl, rfl, rfl, rfl, rfl⟩

/-- Witness for `planning_transition_frame` at a concrete state. -/
theorem planning_transition_frame_witness :
    stepNode Node.planNode wC9State wInputMore
      = some (Node.retrieveNode, plan_research wC9State wInputMore.planRaw wInputMore.planParse)
    ∧ (plan_research wC9State wInputMore.planRaw wInputMore.planParse).web_search_results
        = wC9State.web_search_results :=
  ⟨(planning_transition_frame wC9State wInputMore wItem rfl).1,
   (planning_transition_frame wC9State wInputMore wItem rfl).2.2.2.2.2.2.1⟩

/-- C10 counterexample: the term→definition mapping does not grow
monotonically as a set of entries — re-hydrating a term already present
overwrites its definition (`{**old, **new}`), so the definition `"d1"`
hydrated while processing item 1 is absent from the mapping (and hence from
the synthesis input) when item 2 reaches synthesis. -/
theorem web_defs_overwrite_counterexample :
    (runSteps (wC10Script.take 4) (Node.planNode, initialState wC10Items)).map
      (fun ns => ns.2.web_search_results) = some [("t", "d1")]
    ∧ (runSteps wC10Script (Node.planNode, initialState wC10Items)).map
      (fun ns => (ns.1, ns.2.current_item_index, ns.2.web_search_results))
      = some (Node.evaluateNode, 1, [("t", "d2")])
    ∧ (runSteps wC10Script (Node.planNode, initialState wC10Items)).map
      (fun ns => decide (("t", "d1") ∈ synthDefs ns.2)) = some false := by
  refine ⟨by decide, by decide, by decide⟩

/-- C10 amended: the mapping's key set grows monotonically across every
graph step and is never cleared — `plan_research` carries the mapping
forward verbatim and `web_search` merges into it — and `synthesize` feeds
the entire current mapping to drafting, so every term hydrated earlier is
still present (with its most recent definition) in each later synthesis
input. -/
theorem web_defs_domain_monotone (n : Node) (s : AgentState) (i : StepInput)
    (n' : Node) (s' : AgentState) (h : stepNode n s i = some (n', s')) :
    keysOf s.web_search_results ⊆ keysOf s'.web_search_results
    ∧ (n = Node.planNode → s'.web_search_results = s.web_search_results)
    ∧ synthDefs s = s.web_search_results := by
  cases n with
  | planNode =>
      simp only [stepNode] at h
      cases hg : s.consort_items[s.current_item_index]? with
      | none => rw [hg] at h; exact absurd h (by simp)
      | some it =>
          rw [hg] at h
          simp only [Option.some.injEq, Prod.mk.injEq] at h
          obtain ⟨hn, hs⟩ := h
          subst hs
          exact ⟨fun a ha => ha, fun _ => rfl, rfl⟩
  | retrieveNode =>
      simp only [stepNode, Option.some.injEq, Prod.mk.injEq] at h
      obtain ⟨hn, hs⟩ := h
      subst hs
      exact ⟨fun a ha => ha, fun hh => Node.noConfusion hh, rfl⟩
  | evaluateNode =>
      simp only [stepNode] at h
      cases hg : s.consort_items[s.current_item_index]? with
      | none => rw [hg] at h; exact absurd h (by simp)
      | some it =>
          rw [hg] at h
          cases hres : evalResultOf i.evalRaw i.evalParse with
          | none => rw [hres] at h; exact absurd h (by simp)
          | some r =>
              rw [hres] at h
              simp only [Option.some.injEq, Prod.mk.injEq] at h
              obtain ⟨hn, hs⟩ := h
              subst hs
              rw [show keysOf (evalUpdate s r).web_search_results
                  = keysOf s.web_search_results from by rw [evalUpdate_web_search_results]]
              exact ⟨fun a ha => ha, fun hh => Node.noConfusion hh, rfl⟩
  | webSearchNode =>
      simp only [stepNode, Option.some.injEq, Prod.mk.injEq] at h
      obtain ⟨hn, hs⟩ := h
      subst hs
      refine ⟨?_, fun hh => Node.noConfusion hh, rfl⟩
      simp only [web_search]
      split
      · exact fun a ha => ha
      · exact keysOf_dictMerge_subset _ _
  | synthesizeNode =>
      simp only [stepNode] at h
      cases hg : s.consort_items[s.current_item_index]? with
      | none => rw [hg] at h; exact absurd h (by simp)
      | some it =>
          rw [hg] at h
          simp only [Option.some.injEq, Prod.mk.injEq] at h
          obtain ⟨hn, hs⟩ := h
          subst hs
          exact ⟨fun a ha => ha, fun hh => Node.noConfusion hh, rfl⟩
  | generateLatexNode =>
      simp only [stepNode, Option.some.injEq, Prod.mk.injEq] at h
      obtain ⟨hn, hs⟩ := h
      subst hs
      exact ⟨fun a ha => ha, fun hh => Node.noConfusion hh, rfl⟩
  | terminal =>
      simp only [stepNode, Option.some.injEq, Prod.mk.injEq] at h
      obtain ⟨hn, hs⟩ := h
      subst hs
      exact ⟨fun a ha => ha, fun hh => Node.noConfusion hh, rfl⟩

lemma insertDesc_perm (c : RetrievedChunk) (l : List RetrievedChunk) :
    (insertDesc c l).Perm (c :: l) := by
  induction l with
  | nil => exact List.Perm.refl _
  | cons d ds ih =>
      simp only [insertDesc]
      split
      · exact ((ih.cons d).trans (List.Perm.swap c d ds)).symm.symm
      · exact List.Perm.refl _

lemma foldl_insertDesc_perm :
    ∀ (l acc : List RetrievedChunk),
      (l.foldl (fun a c => insertDesc c a) acc).Perm (acc ++ l) := by
  intro l
  induction l with
  | nil => intro acc; simp
  | cons c cs ih =>
      intro acc
      simp only [List.foldl_cons]
      refine (ih (insertDesc c acc)).trans ?_
      refine ((insertDesc_perm c acc).append_right cs).trans ?_
      exact List.perm_middle.symm

lemma sortDesc_perm (l : List RetrievedChunk) : (sortDesc l).Perm l := by
  simpa [sortDesc] using foldl_insertDesc_perm l []

lemma insertDesc_sorted {l : List RetrievedChunk}
    (hl : List.Sorted (fun a b => b.score ≤ a.score) l) (c : RetrievedChunk) :
    List.Sorted (fun a b => b.score ≤ a.score) (insertDesc c l) := by
  induction l with
  | nil => simp [insertDesc]
  | cons d ds ih =>
      rw [List.sorted_cons] at hl
      obtain ⟨hd, hds⟩ := hl
      simp only [insertDesc]
      split
      · rename_i hcd
        rw [List.sorted_cons]
        refine ⟨?_, ih hds⟩
        intro b hb
        have hb' := (insertDesc_perm c ds).mem_iff.mp hb
        rcases List.mem_cons.mp hb' with hb' | hb'
        · subst hb'; exact hcd
        · exact hd b hb'
      · rename_i hcd
        push_neg at hcd
        rw [List.sorted_cons]
        refine ⟨?_, List.sorted_cons.mpr ⟨hd, hds⟩⟩
        intro b hb
        rcases List.mem_cons.mp hb with hb | hb
        · subst hb; exact le_of_lt hcd
        · exact le_trans (hd b hb) (le_of_lt hcd)

lemma foldl_insertDesc_sorted :
    ∀ (l acc : List RetrievedChunk),
      List.Sorted (fun a b => b.score ≤ a.score) acc →
      List.Sorted (fun a b => b.score ≤ a.score)
        (l.foldl (fun a c => insertDesc c a) acc) := by
  intro l
  induction l with
  | nil => intro acc hacc; simpa using hacc
  | cons c cs ih =>
      intro acc hacc
      simp only [List.foldl_cons]
      exact ih (insertDesc c acc) (insertDesc_sorted hacc c)

lemma sortDesc_sorted (l : List RetrievedChunk) :
    List.Sorted (fun a b => b.score ≤ a.score) (sortDesc l) :=
  foldl_insertDesc_sorted l [] (by simp)

lemma insertDesc_filter_score {l : List RetrievedChunk}
    (hl : List.Sorted (fun a b => b.score ≤ a.score) l) (c : RetrievedChunk) (sc : Int) :
    (insertDesc c l).filter (fun x => x.score = sc)
      = l.filter (fun x => x.score = sc) ++ (if c.score = sc then [c] else []) := by
  induction l with
  | nil =>
      simp only [insertDesc, List.filter_cons, List.filter_nil, List.nil_append]
      split <;> simp_all
  | cons d ds ih =>
      rw [List.sorted_cons] at hl
      obtain ⟨hd, hds⟩ := hl
      simp only [insertDesc]
      split
      · rename_i hcd
        rw [List.filter_cons, List.filter_cons]
        split
        · rw [ih hds, List.cons_append]
        · exact ih hds
      · rename_i hcd
        push_neg at hcd
        by_cases hcs : c.score = sc
        · have hnone : (d :: ds).filter (fun x => x.score = sc) = [] := by
            rw [List.filter_eq_nil_iff]
            intro x hx
            rcases List.mem_cons.mp hx with hx | hx
            · subst hx
              simp only [decide_eq_true_eq]
              omega
            · have := hd x hx
              simp only [decide_eq_true_eq]
              omega
          rw [List.filter_cons, if_pos (by simpa using hcs), hnone]
          simp [hcs]
        · rw [List.filter_cons, if_neg (by simpa using hcs)]
          simp [hcs]

lemma foldl_insertDesc_filter_score :
    ∀ (l acc : List RetrievedChunk) (sc : Int),
      List.Sorted (fun a b => b.score ≤ a.score) acc →
      (l.foldl (fun a c => insertDesc c a) acc).filter (fun x => x.score = sc)
        = acc.filter (fun x => x.score = sc) ++ l.filter (fun x => x.score = sc) := by
  intro l
  induction l with
  | nil => intro acc sc hacc; simp
  | cons c cs ih =>
      intro acc sc hacc
      simp only [List.foldl_cons]
      rw [ih (insertDesc c acc) sc (insertDesc_sorted hacc c),
          insertDesc_filter_score hacc c sc, List.append_assoc, List.filter_cons]
      split <;> simp_all

/-- Stability of the re-rank: within one score class the sorted output keeps
the first-seen (post-dedup) order. -/
lemma sortDesc_filter_score (l : List RetrievedChunk) (sc : Int) :
    (sortDesc l).filter (fun x => x.score = sc) = l.filter (fun x => x.score = sc) := by
  simpa [sortDesc] using foldl_insertDesc_filter_score l [] sc (by simp)

lemma dedupSeen_nodup_texts :
    ∀ (l : List RetrievedChunk) (seen : List String),
      ((dedupSeen seen l).map RetrievedChunk.text).Nodup
      ∧ ∀ t ∈ (dedupSeen seen l).map RetrievedChunk.text, t ∉ seen := by
  intro l
  induction l with
  | nil => intro seen; simp [dedupSeen]
  | cons c cs ih =>
      intro seen
      simp only [dedupSeen]
      split
      · exact ih seen
      · rename_i hcseen
        obtain ⟨ihn, ihs⟩ := ih (c.text :: seen)
        simp only [List.map_cons]
        constructor
        · rw [List.nodup_cons]
          refine ⟨fun hmem => ?_, ihn⟩
          exact (ihs c.text hmem) (List.mem_cons_self _ _)
        · intro t ht
          rcases List.mem_cons.mp ht with ht | ht
          · subst ht; exact hcseen
          · intro htseen
            exact (ihs t ht) (List.mem_cons_of_mem _ htseen)

lemma dedupSeen_eq_self :
    ∀ (l : List RetrievedChunk) (seen : List String),
      (l.map RetrievedChunk.text).Nodup →
      (∀ c ∈ l, c.text ∉ seen) → dedupSeen seen l = l := by
  intro l
  induction l with
  | nil => intro seen _ _; rfl
  | cons c cs ih =>
      intro seen hnd hseen
      simp only [List.map_cons, List.nodup_cons] at hnd
      simp only [dedupSeen, if_neg (hseen c (List.mem_cons_self _ _))]
      congr 1
      refine ih (c.text :: seen) hnd.2 ?_
      intro d hd hmem
      rcases List.mem_cons.mp hmem with hm | hm
      · exact hnd.1 (hm ▸ List.mem_map_of_mem RetrievedChunk.text hd)
      · exact hseen d (List.mem_cons_of_mem _ hd) hm

/-- C6 counterexample: presenting the same fragment set in two input orders
does not always yield the same final ordered list — with a score tie between
distinct texts, the tie is broken by first-seen order, which depends on the
input order. -/
theorem merge_order_dependent_counterexample :
    ([[tieA, tieB]] : List (List RetrievedChunk)).flatten.Perm
      ([[tieB, tieA]] : List (List RetrievedChunk)).flatten
    ∧ multi_query_search [[tieA, tieB]] = [tieA, tieB]
    ∧ multi_query_search [[tieB, tieA]] = [tieB, tieA]
    ∧ multi_query_search [[tieA, tieB]] ≠ multi_query_search [[tieB, tieA]] := by
  refine ⟨by decide, by decide, by decide, by decide⟩

/-- C6 amended: `multi_query_search` returns a list with pairwise-distinct
texts, sorted by descending score, with score ties kept in first-seen
(post-dedup) order; and the merge-and-sort is input-order independent
whenever the underlying fragment set has pairwise-distinct texts and
pairwise-distinct scores (a tie, or two same-text fragments with different
scores, can make the result depend on input order). -/
theorem multi_query_search_contract :
    (∀ rs : List (List RetrievedChunk),
      ((multi_query_search rs).map RetrievedChunk.text).Nodup)
    ∧ (∀ rs : List (List RetrievedChunk),
        List.Sorted (fun a b => b.score ≤ a.score) (multi_query_search rs))
    ∧ (∀ (rs : List (List RetrievedChunk)) (sc : Int),
        (multi_query_search rs).filter (fun x => x.score = sc)
          = (dedupSeen [] rs.flatten).filter (fun x => x.score = sc))
    ∧ (∀ rs1 rs2 : List (List RetrievedChunk),
        rs1.flatten.Perm rs2.flatten →
        (rs1.flatten.map RetrievedChunk.text).Nodup →
        (rs1.flatten.map RetrievedChunk.score).Nodup →
        multi_query_search rs1 = multi_query_search rs2) := by
  refine ⟨?_, ?_, ?_, ?_⟩
  · intro rs
    have hperm := (sortDesc_perm (dedupSeen [] rs.flatten)).map RetrievedChunk.text
    exact hperm.nodup_iff.mpr (dedupSeen_nodup_texts rs.flatten []).1
  · intro rs
    exact sortDesc_sorted _
  · intro rs sc
    exact sortDesc_filter_score _ sc
  · intro rs1 rs2 hperm htext hscore
    have htext2 : (rs2.flatten.map RetrievedChunk.text).Nodup :=
      ((hperm.map RetrievedChunk.text).nodup_iff).mp htext
    have hscore2 : (rs2.flatten.map RetrievedChunk.score).Nodup :=
      ((hperm.map RetrievedChunk.score).nodup_iff).mp hscore
    have hd1 : dedupSeen [] rs1.flatten = rs1.flatten :=
      dedupSeen_eq_self _ [] htext (by simp)
    have hd2 : dedupSeen [] rs2.flatten = rs2.flatten :=
      dedupSeen_eq_self _ [] htext2 (by simp)
    simp only [multi_query_search, hd1, hd2]
    have hsc1 : ((sortDesc rs1.flatten).map RetrievedChunk.score).Nodup :=
      ((sortDesc_perm rs1.flatten).map RetrievedChunk.score).nodup_iff.mpr hscore
    have hsc2 : ((sortDesc rs2.flatten).map RetrievedChunk.score).Nodup :=
      ((sortDesc_perm rs2.flatten).map RetrievedChunk.score).nodup_iff.mpr hscore2
    have hne1 : List.Pairwise (fun a b : RetrievedChunk => a.score ≠ b.score)
        (sortDesc rs1.flatten) := List.pairwise_map.mp hsc1
    have hne2 : List.Pairwise (fun a b : RetrievedChunk => a.score ≠ b.score)
        (sortDesc rs2.flatten) := List.pairwise_map.mp hsc2
    have hp1 : List.Pairwise (fun a b : RetrievedChunk => b.score ≤ a.score)
        (sortDesc rs1.flatten) := sortDesc_sorted _
    have hp2 : List.Pairwise (fun a b : RetrievedChunk => b.score ≤ a.score)
        (sortDesc rs2.flatten) := sortDesc_sorted _
    have hstrict1 : List.Sorted (fun a b : RetrievedChunk => b.score < a.score)
        (sortDesc rs1.flatten) :=
      (hp1.and hne1).imp (fun h => lt_of_le_of_ne h.1 (Ne.symm h.2))
    have hstrict2 : List.Sorted (fun a b : RetrievedChunk => b.score < a.score)
        (sortDesc rs2.flatten) :=
      (hp2.and hne2).imp (fun h => lt_of_le_of_ne h.1 (Ne.symm h.2))
    have hchain : (sortDesc rs1.flatten).Perm (sortDesc rs2.flatten) :=
      ((sortDesc_perm rs1.flatten).trans hperm).trans (sortDesc_perm rs2.flatten).symm
    haveI : IsAntisymm RetrievedChunk (fun a b => b.score < a.score) :=
      ⟨fun a b h1 h2 => absurd (h1.trans h2) (lt_irrefl _)⟩
    exact List.eq_of_perm_of_sorted hchain hstrict1 hstrict2

/-- Witness for `multi_query_search_contract` at concrete inputs. -/
theorem multi_query_search_contract_witness :
    ((multi_query_search [[tieA, tieB]]).map RetrievedChunk.text).Nodup
    ∧ List.Sorted (fun a b => b.score ≤ a.score) (multi_query_search [[tieA, tieB]])
    ∧ multi_query_search [[(⟨"x", 3, "f", 1⟩ : RetrievedChunk)], [⟨"y", 9, "g", 2⟩]]
        = multi_query_search [[(⟨"y", 9, "g", 2⟩ : RetrievedChunk)], [⟨"x", 3, "f", 1⟩]] :=
  ⟨multi_query_search_contract.1 [[tieA, tieB]],
   multi_query_search_contract.2.1 [[tieA, tieB]],
   multi_query_search_contract.2.2.2 _ _ (by decide) (by decide) (by decide)⟩

lemma itemParts_filterMap_itemId (cs ct : String) (x : Item)
    (sects : List (String × String)) :
    (itemParts cs ct x sects).filterMap partItemId = [x.id] := by
  simp only [itemParts, List.filterMap_append]
  split <;> split <;> split <;> simp [partItemId]

lemma itemParts_filterMap_rowId (cs ct : String) (x : Item)
    (sects : List (String × String)) :
    (itemParts cs ct x sects).filterMap partRowId = [] := by
  simp only [itemParts, List.filterMap_append]
  split <;> split <;> split <;> simp [partRowId]

lemma partsLoop_filterMap_itemId (sects : List (String × String)) :
    ∀ (items : List Item) (cs ct : String),
      (partsLoop cs ct sects items).filterMap partItemId = items.map Item.id := by
  intro items
  induction items with
  | nil => intro cs ct; rfl
  | cons x rest ih =>
      intro cs ct
      simp only [partsLoop, List.filterMap_append, itemParts_filterMap_itemId,
        ih x.itemSection x.topic, List.map_cons]
      rfl

lemma partsLoop_filterMap_rowId (sects : List (String × String)) :
    ∀ (items : List Item) (cs ct : String),
      (partsLoop cs ct sects items).filterMap partRowId = [] := by
  intro items
  induction items with
  | nil => intro cs ct; rfl
  | cons x rest ih =>
      intro cs ct
      simp only [partsLoop, List.filterMap_append, itemParts_filterMap_rowId,
        ih x.itemSection x.topic]
      rfl

lemma partsLoop_placeholder_mem (sects : List (String × String)) :
    ∀ (items : List Item) (cs ct : String), ∀ x ∈ items,
      (lookupStr sects x.id).getD "" = "" →
      LPart.noEvidence x.id ∈ partsLoop cs ct sects items := by
  intro items
  induction items with
  | nil => intro cs ct x hx; cases hx
  | cons y rest ih =>
      intro cs ct x hx hfrag
      simp only [partsLoop, List.mem_append]
      rcases List.mem_cons.mp hx with hx | hx
      · subst hx
        left
        simp [itemParts, hfrag]
      · exact Or.inr (ih y.itemSection y.topic x hx hfrag)

lemma partsLoop_eq_flatMap (sects : List (String × String)) :
    ∀ (items : List Item) (cs ct : String),
      partsLoop cs ct sects items
        = (prevLabeled cs ct items).flatMap (fun t => itemParts t.1 t.2.1 t.2.2 sects) := by
  intro items
  induction items with
  | nil => intro cs ct; rfl
  | cons x rest ih =>
      intro cs ct
      simp only [partsLoop, prevLabeled, List.flatMap_cons, ih x.itemSection x.topic]

lemma prevLabeled_item_mem :
    ∀ (items : List Item) (cs ct : String) (t : String × String × Item),
      t ∈ prevLabeled cs ct items → t.2.2 ∈ items := by
  intro items
  induction items with
  | nil => intro cs ct t ht; cases ht
  | cons x rest ih =>
      intro cs ct t ht
      rcases List.mem_cons.mp ht with ht | ht
      · subst ht; exact List.mem_cons_self _ _
      · exact List.mem_cons_of_mem _ (ih x.itemSection x.topic t ht)

lemma itemParts_secCmd_mem (cs ct : String) (x : Item) (sects : List (String × String)) :
    LPart.secCmd x.itemSection ∈ itemParts cs ct x sects ↔ x.itemSection ≠ cs := by
  simp only [itemParts, List.mem_append]
  constructor
  · rintro ((h | h) | h)
    · split at h <;> simp_all
    · split at h <;> simp_all
    · split at h <;> simp_all
  · intro h
    left; left
    simp [h]

lemma itemParts_subsec_mem (cs ct : String) (x : Item) (sects : List (String × String))
    (htop : x.topic ≠ "") :
    LPart.subsec x.topic ∈ itemParts cs ct x sects
      ↔ (x.itemSection ≠ cs ∨ x.topic ≠ ct) := by
  by_cases hsec : x.itemSection ≠ cs
  · simp only [itemParts, if_pos hsec, List.mem_append]
    constructor
    · intro _; exact Or.inl hsec
    · intro _
      left; right
      simp [htop]
  · push_neg at hsec
    simp only [itemParts, hsec, ite_not, List.mem_append]
    constructor
    · rintro ((h | h) | h)
      · simp_all
      · split at h <;> simp_all
      · split at h <;> simp_all
    · rintro (h | h)
      · exact absurd rfl h
      · left; right
        simp [h]

/-- C8 counterexample: the assembler does not insert a topic marker *exactly*
when the topic label changes from the previous item — entering a new section
resets the topic tracker, so an item whose topic equals its predecessor's
still gets a topic marker when its section differs.  On two same-topic items
in different sections the document carries 2 topic markers where the claim
predicts 1. -/
theorem topic_marker_counterexample :
    (partsOf [wC8A, wC8B] []).countP isSubsec = 2
    ∧ claimTopicMarkerCount [wC8A, wC8B] = 1
    ∧ wC8A.topic = wC8B.topic := by
  refine ⟨by decide, by decide, by decide⟩

/-- C8 amended: for a checklist whose section and topic labels are nonempty,
the assembler preserves item input order (the per-item content parts list
the item ids in input order, exactly once each), emits an explicit
no-evidence placeholder for every item without a fragment, appends a
compliance-table row for every item regardless of draft availability, and
inserts a section marker exactly when the section label changes from the
running section (so for the first item and on each section change), and a
topic marker exactly when the section changes or the topic label changes
from the running topic. -/
theorem assembler_document_structure (items : List Item)
    (sects : List (String × String))
    (hlab : ∀ x ∈ items, x.itemSection ≠ "" ∧ x.topic ≠ "") :
    (partsOf items sects).filterMap partItemId = items.map Item.id
    ∧ (partsOf items sects).filterMap partRowId
        = items.map (fun x => escapeLatex x.id)
    ∧ (∀ x ∈ items, (lookupStr sects x.id).getD "" = "" →
        LPart.noEvidence x.id ∈ partsOf items sects)
    ∧ partsLoop "" "" sects items
        = (prevLabeled "" "" items).flatMap (fun t => itemParts t.1 t.2.1 t.2.2 sects)
    ∧ (∀ t ∈ prevLabeled "" "" items,
        (LPart.secCmd t.2.2.itemSection ∈ itemParts t.1 t.2.1 t.2.2 sects
          ↔ t.2.2.itemSection ≠ t.1)
        ∧ (LPart.subsec t.2.2.topic ∈ itemParts t.1 t.2.1 t.2.2 sects
          ↔ (t.2.2.itemSection ≠ t.1 ∨ t.2.2.topic ≠ t.2.1))) := by
  have hrowmap : ∀ l : List Item,
      (l.map tableRowOf).filterMap partRowId = l.map (fun x => escapeLatex x.id) := by
    intro l
    induction l with
    | nil => rfl
    | cons a t ih => simp only [List.map_cons, List.filterMap_cons, tableRowOf, partRowId, ih]
  have hitemmap : ∀ l : List Item, (l.map tableRowOf).filterMap partItemId = [] := by
    intro l
    induction l with
    | nil => rfl
    | cons a t ih => simp only [List.map_cons, List.filterMap_cons, tableRowOf, partItemId, ih]
  refine ⟨?_, ?_, ?_, partsLoop_eq_flatMap sects items "" "", ?_⟩
  · simp only [partsOf, List.filterMap_append, partsLoop_filterMap_itemId, hitemmap]
    simp [partItemId]
  · simp only [partsOf, List.filterMap_append, partsLoop_filterMap_rowId, hrowmap]
    simp [partRowId]
  · intro x hx hfrag
    have hmem := partsLoop_placeholder_mem sects items "" "" x hx hfrag
    simp only [partsOf, List.mem_append]
    tauto
  · intro t ht
    have hmem := prevLabeled_item_mem items "" "" t ht
    exact ⟨itemParts_secCmd_mem t.1 t.2.1 t.2.2 sects,
           itemParts_subsec_mem t.1 t.2.1 t.2.2 sects (hlab t.2.2 hmem).2⟩

/-- Witness for `assembler_document_structure` at concrete items. -/
theorem assembler_document_structure_witness :
    (partsOf [wC8A, wC8B] []).filterMap partItemId = ["1", "2"]
    ∧ LPart.noEvidence "1" ∈ partsOf [wC8A, wC8B] [] := by
  have h := assembler_document_structure [wC8A, wC8B] [] (by decide)
  exact ⟨h.1.trans (by decide), h.2.2.1 wC8A (by decide) (by decide)⟩

/-- Witness for `web_defs_domain_monotone` at a concrete hydration step. -/
theorem web_defs_domain_monotone_witness :
    keysOf wC2State.web_search_results
      ⊆ keysOf (web_search wC2State [("t", "d1")]).web_search_results
    ∧ synthDefs wC2State = wC2State.web_search_results :=
  ⟨(web_defs_domain_monotone Node.webSearchNode wC2State (wInputWeb [("t", "d1")])
      Node.evaluateNode (web_search wC2State [("t", "d1")]) rfl).1,
   (web_defs_domain_monotone Node.webSearchNode wC2State (wInputWeb [("t", "d1")])
      Node.evaluateNode (web_search wC2State [("t", "d1")]) rfl).2.2⟩
